import Mathlib

/-!
Verification development for the SMS spam classification notebook
(`tune-classification-model-hugging-face-transformers.py`).

The development embeds the notebook's original logic shallowly:

* the label mapper: the `id2label` / `label2id` dictionary comprehensions
  built from one enumeration of the distinct labels, and the
  `replace_labels_with_ids` column transform (`label2id[x]` applied to
  every element, a missing key raising `KeyError`, embedded as an
  `Except` error);
* the scoring wrapper `TextClassificationPipelineModel.predict`, which
  reads the first column of the input dataframe, feeds the texts to a
  text-classification pipeline with `truncation=True` and
  `batch_size=8`, collects `prediction['label']` for every prediction
  in order, and returns them as a fresh pandas series.

Python dictionaries are embedded as association lists (first-match
lookup, which agrees with dictionary lookup whenever the keys are
distinct, the regime of every claim), fallible operations return
`Except`, and external framework behaviour (chunked batching, token
truncation, input validation) is modelled from the specification where
noted in the doc comments.
-/

namespace SmsSpam

/-- Errors of the label mapper: a label absent from `label2id`
(Python `KeyError` on the dictionary) or an ID absent from `id2label`. -/
inductive MapperError where
  | unknownLabel (label : String)
  | unknownId (id : Nat)
deriving DecidableEq

/-- `id2label = {index: row.label for (index, row) in enumerate(labels)}`:
the dictionary from integer ID to label string, keyed by the position of
the label in the enumeration of distinct labels. -/
def id2label (labels : List String) : List (Nat × String) :=
  labels.enum

/-- `label2id = {row.label: index for (index, row) in enumerate(labels)}`:
the dictionary from label string to integer ID. -/
def label2id (labels : List String) : List (String × Nat) :=
  labels.enum.map (fun p => (p.2, p.1))

/-- `replace_labels_with_ids`: `labels.apply(lambda x: label2id[x])`.
Each label is looked up in the table in order; a label absent from the
table raises (Python `KeyError`), embedded as `Except.error`. -/
def replace_labels_with_ids (table : List (String × Nat)) :
    List String → Except MapperError (List Nat)
  | [] => .ok []
  | s :: rest =>
    match table.lookup s with
    | some i => (replace_labels_with_ids table rest).map (fun t => i :: t)
    | none => .error (.unknownLabel s)

/-- Modelled from the spec: `decode` translates predicted integer IDs back
to label strings through `id2label`. The source has no standalone decode
function — `id2label` is stored in the model configuration and the
external pipeline performs the ID-to-label lookup when it produces
`prediction['label']` — so the lookup loop itself follows the spec's
description of `decode` (fails with `UnknownId` outside `[0, K)`). -/
def decode (table : List (Nat × String)) :
    List Nat → Except MapperError (List String)
  | [] => .ok []
  | i :: rest =>
    match table.lookup i with
    | some s => (decode table rest).map (fun t => s :: t)
    | none => .error (.unknownId i)

/-- Looking up `k + j` in the enumeration started at `k` returns the
element at position `j`. -/
theorem lookup_enumFrom (l : List String) (k j : Nat) :
    (List.enumFrom k l).lookup (k + j) = l.get? j := by
  induction l generalizing k j with
  | nil => simp [List.lookup]
  | cons x xs ih =>
    rw [List.enumFrom_cons]
    cases j with
    | zero => simp [List.lookup]
    | succ j' =>
      have hrw : k + (j' + 1) = (k + 1) + j' := by omega
      have hne : ((k + 1) + j' == k) = false := by
        simp only [beq_eq_false_iff_ne, ne_eq]
        omega
      simp only [List.lookup, hrw, hne, ih (k + 1) j', List.get?_cons_succ]

/-- Lookup in `id2label` is positional indexing into the enumeration. -/
theorem id2label_lookup (l : List String) (i : Nat) :
    (id2label l).lookup i = l.get? i := by
  have h := lookup_enumFrom l 0 i
  simpa [id2label, List.enum] using h

/-- For an enumeration without duplicates, looking up the label at
position `j` in the reversed enumeration started at `k` yields `k + j`. -/
theorem lookup_swap_enumFrom (l : List String) (hl : l.Nodup) (k j : Nat)
    (hj : j < l.length) :
    ((List.enumFrom k l).map (fun p => (p.2, p.1))).lookup (l.get ⟨j, hj⟩) =
      some (k + j) := by
  induction l generalizing k j with
  | nil => simp at hj
  | cons x xs ih =>
    rw [List.enumFrom_cons]
    cases j with
    | zero => simp [List.lookup]
    | succ j' =>
      have hj' : j' < xs.length := by simpa using hj
      have hget : (x :: xs).get ⟨j' + 1, hj⟩ = xs.get ⟨j', hj'⟩ := rfl
      have hx : x ∉ xs := (List.nodup_cons.mp hl).1
      have hne : (xs.get ⟨j', hj'⟩ == x) = false := by
        simp only [beq_eq_false_iff_ne, ne_eq]
        intro heq
        exact hx (heq ▸ xs.get_mem j' hj')
      have hrw : k + (j' + 1) = (k + 1) + j' := by omega
      simp only [List.map_cons, List.lookup, hget, hne,
        ih (List.nodup_cons.mp hl).2 (k + 1) j' hj', hrw]

/-- Lookup in `label2id` of the label at position `j` returns `j`,
provided the enumerated labels are distinct. -/
theorem label2id_lookup (l : List String) (hl : l.Nodup) (j : Nat)
    (hj : j < l.length) :
    (label2id l).lookup (l.get ⟨j, hj⟩) = some j := by
  have h := lookup_swap_enumFrom l hl 0 j hj
  simpa [label2id, List.enum] using h

/-- For a distinct enumeration, every member label has an ID under
`label2id`, and that ID decodes back to the label under `id2label`. -/
theorem label2id_id2label_roundtrip (l : List String) (hl : l.Nodup)
    (s : String) (hs : s ∈ l) :
    ∃ j, (label2id l).lookup s = some j ∧ (id2label l).lookup j = some s := by
  obtain ⟨⟨j, hj⟩, hget⟩ := List.mem_iff_get.mp hs
  refine ⟨j, ?_, ?_⟩
  · rw [← hget]
    exact label2id_lookup l hl j hj
  · rw [id2label_lookup, List.get?_eq_get hj, hget]

/-- Encoding a list of known labels succeeds, and decoding the resulting
IDs restores the original list. -/
theorem encode_then_decode (l : List String) (hl : l.Nodup)
    (ls : List String) (h : ∀ s ∈ ls, s ∈ l) :
    ∃ ids, replace_labels_with_ids (label2id l) ls = .ok ids ∧
      decode (id2label l) ids = .ok ls := by
  induction ls with
  | nil => exact ⟨[], rfl, rfl⟩
  | cons a rest ih =>
    obtain ⟨j, henc, hdec⟩ :=
      label2id_id2label_roundtrip l hl a (h a (List.mem_cons_self a rest))
    obtain ⟨ids, hok, hback⟩ := ih (fun s hs => h s (List.mem_cons_of_mem a hs))
    refine ⟨j :: ids, ?_, ?_⟩
    · simp [replace_labels_with_ids, henc, hok, Except.map]
    · simp [decode, hdec, hback, Except.map]

/-- C2: building the label table from distinct labels, then encoding any
list of labels drawn from that set and decoding the resulting IDs,
returns the original list; in particular for `["ham", "spam"]`, encoding
`["spam", "ham", "spam"]` yields `[1, 0, 1]` and decoding `[1, 0, 1]`
yields `["spam", "ham", "spam"]`. -/
theorem build_encode_decode_identity :
    (∀ l : List String, l.Nodup → ∀ ls : List String, (∀ s ∈ ls, s ∈ l) →
      ∃ ids, replace_labels_with_ids (label2id l) ls = .ok ids ∧
        decode (id2label l) ids = .ok ls)
    ∧ replace_labels_with_ids (label2id ["ham", "spam"])
        ["spam", "ham", "spam"] = .ok [1, 0, 1]
    ∧ decode (id2label ["ham", "spam"]) [1, 0, 1] =
        .ok ["spam", "ham", "spam"] :=
  ⟨encode_then_decode, rfl, rfl⟩

/-- Witness for C2 at the concrete label set of the notebook. -/
theorem build_encode_decode_identity_witness :
    ∃ ids, replace_labels_with_ids (label2id ["ham", "spam"])
        ["spam", "ham"] = .ok ids ∧
      decode (id2label ["ham", "spam"]) ids = .ok ["spam", "ham"] :=
  build_encode_decode_identity.1 ["ham", "spam"] (by decide)
    ["spam", "ham"] (by decide)

/-- C3: for a distinct enumeration, `label2id` and `id2label` are exact
inverses over their domains, the assigned IDs are exactly `0..K-1` in
enumeration order (no duplicates, no gaps), and each label's ID is its
position in the enumeration. -/
theorem label_table_bijection (l : List String) (hl : l.Nodup) :
    (∀ s ∈ l, ∃ i, (label2id l).lookup s = some i ∧
        (id2label l).lookup i = some s)
    ∧ (∀ i s, (id2label l).lookup i = some s →
        (label2id l).lookup s = some i)
    ∧ (label2id l).map Prod.snd = List.range l.length
    ∧ (∀ j (hj : j < l.length),
        (label2id l).lookup (l.get ⟨j, hj⟩) = some j) := by
  refine ⟨label2id_id2label_roundtrip l hl, ?_, ?_, label2id_lookup l hl⟩
  · intro i s hlook
    rw [id2label_lookup] at hlook
    obtain ⟨hi, hget⟩ := List.get?_eq_some.mp hlook
    rw [← hget]
    exact label2id_lookup l hl i hi
  · have hcomp : (Prod.snd ∘ fun p : Nat × String => (p.2, p.1)) = Prod.fst :=
      rfl
    rw [label2id, List.map_map, hcomp, List.enum_map_fst]

/-- Witness for C3 at the concrete label set of the notebook. -/
theorem label_table_bijection_witness :
    (label2id ["ham", "spam"]).map Prod.snd = List.range 2 ∧
    (label2id ["ham", "spam"]).lookup "spam" = some 1 := by
  have h := label_table_bijection ["ham", "spam"] (by decide)
  refine ⟨h.2.2.1, ?_⟩
  have h1 := h.2.2.2 1 (by decide)
  simpa using h1

/-- C4: encoding a list containing a label absent from the table fails
with `unknownLabel`; no default or substitute ID is ever produced. -/
theorem encode_unknown_label (table : List (String × Nat))
    (ls : List String) (h : ∃ s ∈ ls, table.lookup s = none) :
    ∃ s, s ∈ ls ∧ table.lookup s = none ∧
      replace_labels_with_ids table ls = .error (.unknownLabel s) ∧
      ∀ ids, replace_labels_with_ids table ls ≠ .ok ids := by
  induction ls with
  | nil => simp at h
  | cons a rest ih =>
    cases htab : table.lookup a with
    | none =>
      refine ⟨a, List.mem_cons_self a rest, htab, ?_, ?_⟩
      · simp [replace_labels_with_ids, htab]
      · intro ids
        simp [replace_labels_with_ids, htab]
    | some i =>
      have h' : ∃ s ∈ rest, table.lookup s = none := by
        obtain ⟨s, hs, hn⟩ := h
        rcases List.mem_cons.mp hs with he | hm
        · rw [he, htab] at hn
          cases hn
        · exact ⟨s, hm, hn⟩
      obtain ⟨s, hm, hn, herr, _⟩ := ih h'
      refine ⟨s, List.mem_cons_of_mem a hm, hn, ?_, ?_⟩
      · simp [replace_labels_with_ids, htab, herr, Except.map]
      · intro ids
        simp [replace_labels_with_ids, htab, herr, Except.map]

/-- Witness for C4: encoding a label outside the notebook's table. -/
theorem encode_unknown_label_witness :
    ∃ s, s ∈ ["spam", "junk"] ∧
      (label2id ["ham", "spam"]).lookup s = none ∧
      replace_labels_with_ids (label2id ["ham", "spam"]) ["spam", "junk"] =
        .error (.unknownLabel s) ∧
      ∀ ids, replace_labels_with_ids (label2id ["ham", "spam"])
        ["spam", "junk"] ≠ .ok ids :=
  encode_unknown_label (label2id ["ham", "spam"]) ["spam", "junk"]
    ⟨"junk", by decide, rfl⟩

/-- C9: ID assignment is deterministic — two builds from equal
enumerations produce identical tables, and the tables are a function of
position alone: each label's ID is its index in the enumeration and each
index maps back to the label at that position. -/
theorem build_deterministic (l₁ l₂ : List String) (h : l₁ = l₂) :
    (label2id l₁ = label2id l₂ ∧ id2label l₁ = id2label l₂)
    ∧ (l₁.Nodup → ∀ j (hj : j < l₁.length),
        (label2id l₁).lookup (l₁.get ⟨j, hj⟩) = some j ∧
        (id2label l₁).lookup j = some (l₁.get ⟨j, hj⟩)) := by
  subst h
  refine ⟨⟨rfl, rfl⟩, fun hl j hj => ⟨label2id_lookup l₁ hl j hj, ?_⟩⟩
  rw [id2label_lookup]
  exact List.get?_eq_get hj

/-- Witness for C9 at the concrete label set of the notebook. -/
theorem build_deterministic_witness :
    label2id ["ham", "spam"] = label2id ["ham", "spam"] ∧
    (label2id ["ham", "spam"]).lookup "spam" = some 1 ∧
    (id2label ["ham", "spam"]).lookup 1 = some "spam" := by
  have h := build_deterministic ["ham", "spam"] ["ham", "spam"] rfl
  have h1 := h.2 (by decide) 1 (by decide)
  exact ⟨h.1.1, by simpa using h1.1, by simpa using h1.2⟩

/-- The text-classification pipeline wrapped by the scoring model:
`tokenize` (the model's tokenizer), `maxLen` (the model's maximum
sequence length) and `classifyTokens` (model forward pass, argmax over
the class scores and `id2label` lookup, producing
`prediction['label']`) are external framework components and are kept
abstract. -/
structure Pipeline where
  tokenize : String → List Nat
  maxLen : Nat
  classifyTokens : List Nat → String

/-- Modelled from the spec: processing of one text by the pipeline
called with `truncation=True` — the token sequence is truncated to the
model's maximum length (not rejected) and then classified; the source
passes `truncation=True` to the external pipeline, which performs the
truncation. -/
def classifyOne (p : Pipeline) (t : String) : String :=
  p.classifyTokens ((p.tokenize t).take p.maxLen)

/-- Modelled from the spec: partition of the input list into chunks of
at most `n` texts (`batch_size=n` of the pipeline call); the chunking
itself happens inside the external pipeline. -/
def chunk {α : Type} (n : Nat) : List α → List (List α)
  | [] => []
  | x :: xs => (x :: xs.take (n - 1)) :: chunk n (xs.drop (n - 1))
termination_by l => l.length
decreasing_by simp [List.length_drop]; omega

/-- Modelled from the spec: the batched pipeline call
`self.pipeline(texts, truncation=True, batch_size=bs)` — texts are
partitioned into chunks of at most `bs`, each chunk is classified one
text at a time, and the per-chunk outputs are concatenated in order. -/
def applyPipeline (p : Pipeline) (bs : Nat) (texts : List String) :
    List String :=
  ((chunk bs texts).map (fun c => c.map (classifyOne p))).flatten

/-- Concatenating the chunks restores the original list. -/
theorem chunk_flatten {α : Type} (n : Nat) :
    ∀ l : List α, (chunk n l).flatten = l
  | [] => by simp [chunk]
  | x :: xs => by
    rw [chunk, List.flatten_cons, chunk_flatten n (xs.drop (n - 1))]
    simp [List.take_append_drop]
termination_by l => l.length
decreasing_by simp [List.length_drop]; omega

/-- The batched pipeline is the plain elementwise map, whatever the
batch size. -/
theorem applyPipeline_eq_map (p : Pipeline) (bs : Nat)
    (texts : List String) :
    applyPipeline p bs texts = texts.map (classifyOne p) := by
  rw [applyPipeline, ← List.map_flatten, chunk_flatten]

/-- Every chunk holds at most `n` elements (for positive `n`). -/
theorem chunk_length_le {α : Type} (n : Nat) (hn : 0 < n) :
    ∀ l : List α, ∀ c ∈ chunk n l, c.length ≤ n
  | [] => by simp [chunk]
  | x :: xs => by
    intro c hc
    rw [chunk] at hc
    rcases List.mem_cons.mp hc with he | hm
    · subst he
      simp only [List.length_cons, List.length_take]
      omega
    · exact chunk_length_le n hn (xs.drop (n - 1)) c hm
termination_by l => l.length
decreasing_by simp [List.length_drop]; omega

/-- A cell of a pandas dataframe column: a string, or a malformed
non-string value. -/
inductive Cell where
  | str (s : String)
  | nonStr
deriving DecidableEq

/-- A pandas dataframe: named columns of cells plus a row index. -/
structure DataFrame where
  cols : List (String × List Cell)
  index : List Int

/-- `model_input.columns` — the column names in order. -/
def DataFrame.columns (df : DataFrame) : List String :=
  df.cols.map Prod.fst

/-- `model_input[name]` — column selection by name (first match). -/
def DataFrame.getCol (df : DataFrame) (name : String) : List Cell :=
  (df.cols.lookup name).getD []

/-- `model_input[model_input.columns[0]]` — the first column of the
input dataframe. -/
def firstColumn (df : DataFrame) : List Cell :=
  df.getCol (df.columns.headD "")

/-- Scoring-side error: a malformed (non-string) element in the
input. -/
inductive PredictError where
  | invalidInput
deriving DecidableEq

/-- Modelled from the spec: extraction of the texts from the first
column (`.to_list()`), rejecting malformed non-string input with
`InvalidInput` before anything reaches the model — the source delegates
this validation to the external pipeline/tokenizer. -/
def getTexts : List Cell → Except PredictError (List String)
  | [] => .ok []
  | .str s :: rest => (getTexts rest).map (fun ts => s :: ts)
  | .nonStr :: _ => .error .invalidInput

/-- A pandas series: values plus a positional row index. -/
structure Series where
  index : List Nat
  values : List String
deriving DecidableEq

/-- `pd.Series(labels)` — a fresh series indexed `0..len-1`. -/
def pdSeries (vals : List String) : Series :=
  ⟨List.range vals.length, vals⟩

/-- The `batch_size=8` hardwired into the pipeline call of `predict`. -/
def pipelineBatchSize : Nat := 8

/-- `TextClassificationPipelineModel.predict`: read the first column of
the input dataframe as the list of texts, run the pipeline with
`truncation=True` and `batch_size=8`, collect `prediction['label']` for
every prediction in order, and return a fresh `pd.Series` of the
labels. -/
def predict (p : Pipeline) (df : DataFrame) : Except PredictError Series :=
  (getTexts (firstColumn df)).map
    (fun texts => pdSeries (applyPipeline p pipelineBatchSize texts))

/-- The wrapper object: its only field is the pipeline installed by
`load_context`; the `predict` method reads it and assigns nothing. -/
structure TextClassificationPipelineModel where
  pipeline : Pipeline

/-- One `predict` call as a state transition of the wrapper object:
the method mutates no attribute, so the state component is returned
unchanged, exactly as in the source. -/
def predictStep (m : TextClassificationPipelineModel) (df : DataFrame) :
    TextClassificationPipelineModel × Except PredictError Series :=
  (m, predict m.pipeline df)

/-- A sequence of `predict` calls threading the object state. -/
def predictMany (m : TextClassificationPipelineModel) :
    List DataFrame →
      TextClassificationPipelineModel × List (Except PredictError Series)
  | [] => (m, [])
  | df :: rest =>
    let r := predictStep m df
    let rs := predictMany r.1 rest
    (rs.1, r.2 :: rs.2)

/-- Extraction succeeds exactly on all-string columns. -/
theorem getTexts_ok (cells : List Cell)
    (h : ∀ c ∈ cells, c ≠ Cell.nonStr) :
    ∃ ts, getTexts cells = .ok ts := by
  induction cells with
  | nil => exact ⟨[], rfl⟩
  | cons c rest ih =>
    cases c with
    | str s =>
      obtain ⟨ts, hts⟩ := ih (fun c hc => h c (List.mem_cons_of_mem _ hc))
      exact ⟨s :: ts, by simp [getTexts, hts, Except.map]⟩
    | nonStr => exact absurd rfl (h _ (List.mem_cons_self _ _))

/-- Extraction rejects a column containing a non-string cell. -/
theorem getTexts_error (cells : List Cell) (h : Cell.nonStr ∈ cells) :
    getTexts cells = .error .invalidInput := by
  induction cells with
  | nil => simp at h
  | cons c rest ih =>
    cases c with
    | str s =>
      have hm : Cell.nonStr ∈ rest := by
        rcases List.mem_cons.mp h with he | hm
        · exact absurd he (by simp)
        · exact hm
      simp [getTexts, ih hm, Except.map]
    | nonStr => rfl

/-- A concrete pipeline used in the witnesses: one token per character,
a large maximum length, and a model that labels everything `"ham"`. -/
def hamPipeline : Pipeline :=
  ⟨fun s => List.range s.length, 512, fun _ => "ham"⟩

/-- A second concrete pipeline used in the witnesses, with a different
model and a small maximum length. -/
def spamPipeline : Pipeline :=
  ⟨fun s => List.range s.length, 2, fun _ => "spam"⟩

/-- C1: classification is length-preserving and order-preserving, and
the output is invariant under the internal chunking: any two batch
sizes give the same result, the i-th output is the predicted label of
the i-th input, `predict` returns exactly the per-text labels of the
extracted texts, and the four-text scenario with batch sizes 2 and 4
returns the same four labels. -/
theorem classify_length_order_chunking (p : Pipeline) (bs₁ bs₂ : Nat)
    (texts : List String) (df : DataFrame) (ts : List String)
    (h : getTexts (firstColumn df) = .ok ts) :
    (applyPipeline p bs₁ texts).length = texts.length
    ∧ applyPipeline p bs₁ texts = applyPipeline p bs₂ texts
    ∧ (∀ i, (applyPipeline p bs₁ texts).get? i =
        (texts.get? i).map (classifyOne p))
    ∧ predict p df = .ok (pdSeries (ts.map (classifyOne p)))
    ∧ applyPipeline p 2 ["free money now", "see you at 5pm",
        "win a prize", "lunch tomorrow?"] =
      applyPipeline p 4 ["free money now", "see you at 5pm",
        "win a prize", "lunch tomorrow?"]
    ∧ (applyPipeline p 2 ["free money now", "see you at 5pm",
        "win a prize", "lunch tomorrow?"]).length = 4 := by
  refine ⟨?_, ?_, fun i => ?_, ?_, ?_, ?_⟩
  · rw [applyPipeline_eq_map, List.length_map]
  · rw [applyPipeline_eq_map, applyPipeline_eq_map]
  · rw [applyPipeline_eq_map, List.get?_map]
  · simp only [predict, h, Except.map, applyPipeline_eq_map]
  · rw [applyPipeline_eq_map, applyPipeline_eq_map]
  · rw [applyPipeline_eq_map, List.length_map]
    rfl

/-- Witness for C1 at a concrete dataframe and pipeline. -/
theorem classify_length_order_chunking_witness :
    predict hamPipeline ⟨[("text", [Cell.str "hi"])], [0]⟩ =
      .ok (pdSeries (["hi"].map (classifyOne hamPipeline))) :=
  (classify_length_order_chunking hamPipeline 2 4 []
    ⟨[("text", [Cell.str "hi"])], [0]⟩ ["hi"] rfl).2.2.2.1

/-- C5: classifying the empty input returns the empty output, and the
model is not invoked: the empty result is independent of the pipeline
(model, tokenizer and batch size alike). -/
theorem classify_empty (p q : Pipeline) (bs₁ bs₂ : Nat) (df : DataFrame)
    (h : firstColumn df = []) :
    predict p df = .ok ⟨[], []⟩
    ∧ applyPipeline p bs₁ [] = []
    ∧ applyPipeline p bs₁ [] = applyPipeline q bs₂ [] := by
  refine ⟨?_, ?_, ?_⟩
  · simp only [predict, h, getTexts, Except.map, applyPipeline_eq_map]
    rfl
  · rw [applyPipeline_eq_map]
    rfl
  · rw [applyPipeline_eq_map, applyPipeline_eq_map]
    rfl

/-- Witness for C5: an empty text column. -/
theorem classify_empty_witness :
    predict hamPipeline ⟨[("text", [])], []⟩ = .ok ⟨[], []⟩ :=
  (classify_empty hamPipeline spamPipeline 8 3 ⟨[("text", [])], []⟩ rfl).1

/-- C6: `predict` never errors on a well-formed (all-string) column, and
a column containing a non-string cell is rejected with `invalidInput`
independently of the model — no element reaches it and no partial
output is produced. -/
theorem classify_input_validation (p q : Pipeline) (df : DataFrame) :
    ((∀ c ∈ firstColumn df, c ≠ Cell.nonStr) → ∃ s, predict p df = .ok s)
    ∧ (Cell.nonStr ∈ firstColumn df →
        predict p df = .error .invalidInput ∧
        predict p df = predict q df) := by
  constructor
  · intro h
    obtain ⟨ts, hts⟩ := getTexts_ok _ h
    exact ⟨pdSeries (applyPipeline p pipelineBatchSize ts),
      by simp only [predict, hts, Except.map]⟩
  · intro h
    have he := getTexts_error _ h
    exact ⟨by simp only [predict, he, Except.map],
      by simp only [predict, he, Except.map]⟩

/-- Witness for C6: a well-formed column and a malformed one. -/
theorem classify_input_validation_witness :
    (∃ s, predict hamPipeline ⟨[("text", [Cell.str "hi"])], [0]⟩ = .ok s)
    ∧ predict hamPipeline
        ⟨[("text", [Cell.str "hi", Cell.nonStr])], [0, 1]⟩ =
      .error .invalidInput :=
  ⟨(classify_input_validation hamPipeline spamPipeline
      ⟨[("text", [Cell.str "hi"])], [0]⟩).1 (by decide),
   ((classify_input_validation hamPipeline spamPipeline
      ⟨[("text", [Cell.str "hi", Cell.nonStr])], [0, 1]⟩).2 (by decide)).1⟩

/-- C7: an over-length text is truncated to the model's maximum
sequence length rather than rejected, still yields exactly one label,
and classification stays total: one output per input whatever the
input lengths. -/
theorem classify_truncates_long_input (p : Pipeline) (bs : Nat)
    (t : String) (h : p.maxLen < (p.tokenize t).length) :
    applyPipeline p bs [t] =
      [p.classifyTokens ((p.tokenize t).take p.maxLen)]
    ∧ ((p.tokenize t).take p.maxLen).length = p.maxLen
    ∧ ∀ texts : List String,
        (applyPipeline p bs texts).length = texts.length := by
  refine ⟨?_, ?_, fun texts => ?_⟩
  · rw [applyPipeline_eq_map]
    rfl
  · rw [List.length_take]
    omega
  · rw [applyPipeline_eq_map, List.length_map]

/-- Witness for C7: a four-token text against a maximum length of 2. -/
theorem classify_truncates_long_input_witness :
    applyPipeline spamPipeline 8 ["abcd"] = ["spam"] ∧
    ((spamPipeline.tokenize "abcd").take spamPipeline.maxLen).length = 2 := by
  have h := classify_truncates_long_input spamPipeline 8 "abcd" (by decide)
  exact ⟨h.1, h.2.1⟩

/-- `predictMany` never changes the wrapper object and maps `predict`
over the inputs. -/
theorem predictMany_spec (m : TextClassificationPipelineModel) :
    ∀ dfs : List DataFrame, (predictMany m dfs).1 = m ∧
      (predictMany m dfs).2 = dfs.map (fun df => predict m.pipeline df)
  | [] => ⟨rfl, rfl⟩
  | df :: rest => by
    have ih := predictMany_spec m rest
    refine ⟨?_, ?_⟩ <;> simp [predictMany, predictStep, ih.1, ih.2]

/-- C8: the batch size is a constant fixed in the wrapper (8), not a
parameter of the scoring call; every chunk submitted in any call holds
at most that many texts; and the wrapper is stateless: any sequence of
calls leaves the object unchanged and each call's result is a function
of that call's input alone. -/
theorem batch_size_fixed_stateless (m : TextClassificationPipelineModel)
    (dfs : List DataFrame) :
    (predictMany m dfs).1 = m
    ∧ (predictMany m dfs).2 = dfs.map (fun df => predict m.pipeline df)
    ∧ pipelineBatchSize = 8
    ∧ ∀ texts : List String, ∀ c ∈ chunk pipelineBatchSize texts,
        c.length ≤ pipelineBatchSize :=
  ⟨(predictMany_spec m dfs).1, (predictMany_spec m dfs).2, rfl,
    fun texts => chunk_length_le pipelineBatchSize (by decide) texts⟩

/-- C10: `predict` reads only the first column — two dataframes with
the same first column (any extra columns, any row index) produce the
same result — and a successful result is a fresh series indexed
`0..n-1`. -/
theorem predict_first_column_fresh_index (p : Pipeline)
    (df₁ df₂ : DataFrame) (h : firstColumn df₁ = firstColumn df₂) :
    predict p df₁ = predict p df₂
    ∧ ∀ s, predict p df₁ = .ok s →
        s.index = List.range s.values.length := by
  constructor
  · simp only [predict, h]
  · intro s hs
    simp only [predict] at hs
    cases hts : getTexts (firstColumn df₁) with
    | ok ts =>
      rw [hts] at hs
      simp only [Except.map] at hs
      injection hs with hs₂
      subst hs₂
      rfl
    | error e =>
      rw [hts] at hs
      simp only [Except.map] at hs
      cases hs

/-- Witness for C10: same first column, different extra column and
row index. -/
theorem predict_first_column_fresh_index_witness :
    predict hamPipeline ⟨[("text", [Cell.str "hi"])], [5]⟩ =
      predict hamPipeline
        ⟨[("text", [Cell.str "hi"]), ("label", [Cell.nonStr])], [7]⟩
    ∧ (pdSeries ["ham"]).index = List.range 1 := by
  have h := predict_first_column_fresh_index hamPipeline
    ⟨[("text", [Cell.str "hi"])], [5]⟩
    ⟨[("text", [Cell.str "hi"]), ("label", [Cell.nonStr])], [7]⟩ rfl
  have hok : predict hamPipeline ⟨[("text", [Cell.str "hi"])], [5]⟩ =
      .ok (pdSeries ["ham"]) := by
    simp only [predict, applyPipeline_eq_map]
    rfl
  exact ⟨h.1, by simpa using h.2 (pdSeries ["ham"]) hok⟩

end SmsSpam
